import Mathlib

/-!
Verification of the iBEAt-improc harmonization engine (src/dixon_2_data.py)
against its natural-language specification.

The Python source is shallowly embedded below:
pure string manipulation becomes functions on `String` / `List Char`,
numpy slice stacks become `List` of frames (a frame is a function from an
abstract pixel index type to `ℚ`), DICOM floating-point attribute values
(echo times, pixel intensities) are modelled as `ℚ`, fallible code returns
`Except`/`Option`, and the stateful per-site drivers become explicit
state-passing functions over a store modelled as a list of canonical
addresses.
-/

/-! ### Decimal rendering of naturals

Models the decimal rendering performed by Python f-strings such as
`f'_{counter}_'` (dixon_2_data.py lines 180, 208, 236, 279, 321, 338, 355).
`natToDigits` is fuel-based structural recursion; fuel `n + 1` always
suffices for rendering `n`. -/

def natToDigits : Nat → Nat → List Char
  | 0, _ => []
  | fuel + 1, n => if n < 10 then [Nat.digitChar n]
      else natToDigits fuel (n / 10) ++ [Nat.digitChar (n % 10)]

def natRepr (n : Nat) : String := String.mk (natToDigits (n + 1) n)

/-- Numeric value of a digit character; partial inverse of `Nat.digitChar`. -/
def digitVal (c : Char) : Nat := c.toNat - 48

/-- Value of a big-endian digit-character list; inverse of `natToDigits`. -/
def digitsVal (l : List Char) : Nat := l.foldl (fun acc c => 10 * acc + digitVal c) 0

/-! ### Python str.replace

`replaceAll s pat rep` models Python `s.replace(pat, rep)`: scan left to
right, replacing each non-overlapping occurrence of `pat` by `rep`
(dixon_2_data.py lines 180, 208, 236, 279, 321, 338, 355).  Fuel-based
structural recursion; fuel `s.length` suffices for non-empty `pat`. -/

def replaceAllAux (pat rep : List Char) : Nat → List Char → List Char
  | 0, s => s
  | _ + 1, [] => []
  | fuel + 1, c :: rest =>
      if pat.isPrefixOf (c :: rest) then
        rep ++ replaceAllAux pat rep fuel ((c :: rest).drop pat.length)
      else
        c :: replaceAllAux pat rep fuel rest

def replaceAll (s pat rep : List Char) : List Char :=
  replaceAllAux pat rep s.length s

/-! ### Gap Interpolator (dixon_2_data.py: bari_030, exeter_interpolate_vol)

A 2-D image frame is a function from an abstract pixel-index type `π` to
`ℚ`; the slice stack `arr` (numpy array indexed along the third axis,
sorted by ascending SliceLocation) is a `List (π → ℚ)`.  Out-of-range
numpy indexing cannot occur at the call sites; `List.getD` with a zero
frame stands in for it. -/

def zeroFrame (π : Type) : π → ℚ := fun _ => 0

/-- bari_030, out-phase branch (lines 509-513): two missing slices after
index `i0` are synthesized from the bracketing frames `arr[i0]` and
`arr[i0+1]` with weights (1/3, 2/3) and (2/3, 1/3) respectively, the
original frames being copied unchanged around them. -/
def bari_030_out_phase (π : Type) (arr : List (π → ℚ)) (i0 : Nat) : List (π → ℚ) :=
  arr.take (i0 + 1)
    ++ [fun p => (1/3) * arr.getD i0 (zeroFrame π) p + (2/3) * arr.getD (i0 + 1) (zeroFrame π) p,
        fun p => (2/3) * arr.getD i0 (zeroFrame π) p + (1/3) * arr.getD (i0 + 1) (zeroFrame π) p]
    ++ arr.drop (i0 + 1)

/-- bari_030, in-phase branch (lines 530-533): one missing slice after
index `i0`, synthesized as the elementwise average of the bracketing
frames. -/
def bari_030_in_phase (π : Type) (arr : List (π → ℚ)) (i0 : Nat) : List (π → ℚ) :=
  arr.take (i0 + 1)
    ++ [fun p => (1/2) * arr.getD i0 (zeroFrame π) p + (1/2) * arr.getD (i0 + 1) (zeroFrame π) p]
    ++ arr.drop (i0 + 1)

/-- exeter_interpolate_vol (lines 1045-1048): one missing slice after index
`i0` (the first index where consecutive slice locations differ by 3),
synthesized as the elementwise average of the bracketing frames. -/
def exeter_interpolate_vol (π : Type) (arr : List (π → ℚ)) (i0 : Nat) : List (π → ℚ) :=
  arr.take (i0 + 1)
    ++ [fun p => (1/2) * arr.getD i0 (zeroFrame π) p + (1/2) * arr.getD (i0 + 1) (zeroFrame π) p]
    ++ arr.drop (i0 + 1)

/-- Modelled from the spec: the claimed interpolation weights for the k-th
of m synthesized slices: `(m-k)/(m+1)` on the bracketing slice before the
gap and `(k+1)/(m+1)` on the bracketing slice after it. -/
def spec_gap_weights (m k : Nat) : ℚ × ℚ :=
  (((m : ℚ) - k) / (m + 1), ((k : ℚ) + 1) / (m + 1))

/-! ### Echo-time split phase assignment (dixon_2_data.py: bari lines
626-632, bari_030 lines 496-501, exeter_111 lines 1104-1110)

`db.split_series(dixon, 'EchoTime')` yields sub-batches tagged with their
echo time; the code compares `dixon_split[0][0] < dixon_split[1][0]` and
assigns the lower echo time to out-phase, the higher to in-phase.  Echo
times are modelled as `ℚ`, a sub-batch as `ℚ × σ` for an abstract batch
type `σ`. -/

def split_out_in (σ : Type) (s0 s1 : ℚ × σ) : (ℚ × σ) × (ℚ × σ) :=
  if s0.1 < s1.1 then (s0, s1) else (s1, s0)

/-- bari lines 581-582, 641-642 / exeter_111 lines 1114-1115, 1124-1125:
the sub-batch selected as out-phase is written under the name suffixed
`out_phase`, the other under `in_phase`. -/
def bari_phase_writes (σ : Type) (name : String) (s0 s1 : ℚ × σ) : List (String × σ) :=
  [(name ++ "out_phase", (split_out_in σ s0 s1).1.2),
   (name ++ "in_phase", (split_out_in σ s0 s1).2.2)]

/-! ### Swap-Correction Table (dixon_2_data.py: swap_fat_water, lines 359-368)

A canonical address `[sitedatapath, pat_id, (study_label, 0), series_desc]`
is modelled as a structure; a CSV record row is a `List String`.  Python
`row[1:4]` is `(row.drop 1).take 3` (slicing truncates on short rows);
`row[4]` is modelled with `List.get?` (the call sites read a curated CSV
whose rows have five columns, so the IndexError Python would raise on a
matched four-column row is not modelled). -/

structure DixonAddr where
  root : String
  patient : String
  study : String × Nat
  name : String
deriving DecidableEq

def swap_fat_water : List (List String) → DixonAddr → String → String → DixonAddr
  | [], dixon, _, _ => dixon
  | row :: rest, dixon, series, image_type =>
      if (row.drop 1).take 3 = [dixon.patient, dixon.study.1, series] then
        if row.get? 4 = some "1" then
          if image_type = "fat" then { dixon with name := series ++ "_water" }
          else if image_type = "water" then { dixon with name := series ++ "_fat" }
          else swap_fat_water rest dixon series image_type
        else swap_fat_water rest dixon series image_type
      else swap_fat_water rest dixon series image_type

/-- A table row matching the address key whose swap flag is set. -/
def rowMatchesFlagged (dixon : DixonAddr) (series : String) (row : List String) : Prop :=
  (row.drop 1).take 3 = [dixon.patient, dixon.study.1, series] ∧ row.get? 4 = some "1"

instance (dixon : DixonAddr) (series : String) (row : List String) :
    Decidable (rowMatchesFlagged dixon series row) := by
  unfold rowMatchesFlagged; infer_instance

/-! ### turku_philips write loop (dixon_2_data.py lines 944-950)

For each split sub-series the code runs
`try: vol = db.volume(...) except: log` and then calls
`db.write_volume(vol, ...)` OUTSIDE the try/else.  The local variable
`vol` is modelled as `Option V` threaded through the loop (`none` before
any successful read); a write with `vol` unbound is Python's uncaught
NameError, modelled as `Except.error`, which aborts the whole driver.
`readVol s = none` models `db.volume` raising for sub-series `s`. -/

def turku_philips_write_loop (V : Type) (readVol : String → Option V) :
    Option V → List String → Except String (List (String × V))
  | _, [] => Except.ok []
  | vol, s :: rest =>
      let vol' := match readVol s with
        | some v => some v
        | none => vol
      match vol' with
      | none => Except.error "NameError: vol referenced before assignment"
      | some v =>
          match turku_philips_write_loop V readVol (some v) rest with
          | Except.error e => Except.error e
          | Except.ok writes => Except.ok ((s, v) :: writes)

/-- bari's volume read/write step (lines 635-642): the write is inside the
`else` of the try/except, so a failed read logs and skips the series,
producing no write and no abort. -/
def bari_volume_write_step (V : Type) (readVol : String → Option V) (s : String) :
    List (String × V) :=
  match readVol s with
  | none => []
  | some v => [(s, v)]

/-! ### Channel Classifier and Disambiguation Ledger

The per-patient ledger is the Python list `all_series`; each
`*_add_series_name` / `*_add_series_desc` call computes a base name, then
runs `counter = 2; while new in all_series: new = base.replace('_1_', f'_{counter}_'); counter += 1`
and appends the first absent candidate (dixon_2_data.py lines 176-182,
204-210, 232-238, 275-281, 334-340, 351-357). -/

/-- The k-th candidate name probed by the while loop: the base itself for
k = 1, and `base.replace('_1_', f'_{k}_')` for k ≥ 2. -/
def series_name_candidate (base : String) (k : Nat) : String :=
  if k = 1 then base
  else String.mk (replaceAll base.data ("_1_".data) (("_" ++ natRepr k ++ "_").data))

/-- The while loop of the disambiguation step, probing candidates k, k+1, …
until one is absent from the ledger.  The Python loop is unbounded; fuel
`ledger.length + 1` is what `next_series_name` supplies, enough probes to
leave any ledger when the candidates are pairwise distinct. -/
def findFresh (cand : Nat → String) (ledger : List String) : Nat → Nat → String
  | 0, k => cand k
  | fuel + 1, k => if cand k ∈ ledger then findFresh cand ledger fuel (k + 1) else cand k

def next_series_name (base : String) (ledger : List String) : String :=
  findFresh (series_name_candidate base) ledger (ledger.length + 1) 1

/-- One successful classification recording its disambiguated name in the
ledger (the shared tail of leeds_add_series_name, sheffield_add_series_desc
and the other `add` procedures). -/
def add_series_name (base : String) (ledger : List String) : List String :=
  ledger ++ [next_series_name base ledger]

/-- N successive classifications of the same base name within one patient,
starting from the empty per-patient ledger. -/
def run_ledger (base : String) : Nat → List String
  | 0 => []
  | n + 1 => add_series_name base (run_ledger base n)

/-- The fully disambiguated name carrying repetition index `k`:
`pre ++ "_" ++ k ++ "_" ++ post`. -/
def numberedName (pre post : String) (k : Nat) : String :=
  pre ++ "_" ++ natRepr k ++ "_" ++ post

/-! leeds_add_series_name (lines 150-182): position heuristic with
threshold 20 plus attribute-derived type. -/

/-- Position heuristic of leeds_add_series_name (lines 152-158). -/
def leeds_series_base (series_nr : Nat) : String :=
  if series_nr < 20 then "Dixon_1_" else "Dixon_post_contrast_1_"

/-- Attribute heuristic of leeds_add_series_name (lines 164-174): map the
fourth ImageType token, unrecognized tokens pass through verbatim. -/
def leeds_props_name (props : String) : String :=
  if props = "IN_PHASE" then "in_phase"
  else if props = "OUT_PHASE" then "out_phase"
  else if props = "WATER" then "water"
  else if props = "FAT" then "fat"
  else props

def leeds_series_name (series_nr : Nat) (props : String) : String :=
  leeds_series_base series_nr ++ leeds_props_name props

/-- Position heuristic of bari_add_series_name / turku_philips_add_series_name
(lines 327-332, 344-349): threshold 1000 on the series number parsed from
the zip name. -/
def bari_series_base (series_nr : Nat) : String :=
  if series_nr < 1000 then "Dixon_1_" else "Dixon_post_contrast_1_"

/-- Python `int(...)` on a string: defined only on (non-empty) all-digit
input, as `int(name[-2:])` at line 154 which raises ValueError otherwise. -/
def digitsToNat? (l : List Char) : Option Nat :=
  if l = [] ∨ ¬ l.all Char.isDigit then none
  else some (digitsVal l)

/-- Python `name[-2:]`: the last two characters. -/
def lastTwo (l : List Char) : List Char := l.drop (l.length - 2)

/-- leeds_add_series_name (lines 150-182) as a fallible ledger update:
parses the series number from the folder name, reads the fourth ImageType
token, and appends the disambiguated name.  `Except.error` models the
exception its caller (line 461-465) catches and logs; the input ledger is
only extended in the `ok` result. -/
def leeds_add_series_name (folder : String) (image_type : List String)
    (all_series : List String) : Except String (List String) :=
  match digitsToNat? (lastTwo folder.data) with
  | none => Except.error "ValueError: invalid literal for int"
  | some nr =>
      match image_type.get? 3 with
      | none => Except.error "IndexError: ImageType"
      | some props =>
          Except.ok (add_series_name (leeds_series_name nr props) all_series)

/-- The fixed description dictionary of bordeaux_add_series_desc
(lines 192-201). -/
def bordeaux_desc_map : List (String × String) :=
  [("T1w_abdomen_dixon_cor_bh_opp", "Dixon_1_out_phase"),
   ("T1w_abdomen_dixon_cor_bh_in", "Dixon_1_in_phase"),
   ("T1w_abdomen_dixon_cor_bh_F", "Dixon_1_fat"),
   ("T1w_abdomen_dixon_cor_bh_W", "Dixon_1_water"),
   ("T1w_abdomen_post_contrast_dixon_cor_bh_opp", "Dixon_post_contrast_1_out_phase"),
   ("T1w_abdomen_post_contrast_dixon_cor_bh_in", "Dixon_post_contrast_1_in_phase"),
   ("T1w_abdomen_post_contrast_dixon_cor_bh_F", "Dixon_post_contrast_1_fat"),
   ("T1w_abdomen_post_contrast_dixon_cor_bh_W", "Dixon_post_contrast_1_water")]

/-- bordeaux_add_series_desc (lines 185-210) as a fallible ledger update:
a dictionary miss is Python's KeyError, caught and logged by the caller
(lines 1008-1012); the ledger is only extended in the `ok` result. -/
def bordeaux_add_series_desc (desc : String) (all_series : List String) :
    Except String (List String) :=
  match bordeaux_desc_map.lookup desc with
  | none => Except.error ("KeyError: " ++ desc)
  | some base => Except.ok (add_series_name base all_series)

/-- The caller's view of the ledger after a classification attempt: the
new ledger on success, the old one when the exception was caught. -/
def ledger_after (r : Except String (List String)) (old : List String) : List String :=
  match r with
  | Except.ok l => l
  | Except.error _ => old

/-! ### Canonical Store idempotency (dixon_2_data.py: leeds, lines 427-476)

The store is a list of canonical addresses; `writes pat` is the
(deterministic, source-derived) list of addresses the driver persists when
patient `pat` is processed.  Lines 435-439: a patient whose directory
`Patient__{pat_id}` already exists in the store is skipped before any
extraction or write. -/

structure CanonAddr where
  root : String
  patient : String
  study : String
  name : String
deriving DecidableEq

/-- The existence check of lines 435-439: does the store already hold an
address of this patient? -/
def patient_exists (store : List CanonAddr) (p : String) : Bool :=
  store.any (fun a => a.patient == p)

/-- Processing one patient: skip if the existence check fires, else append
that patient's writes. -/
def leeds_write_patient (writes : String → List CanonAddr)
    (store : List CanonAddr) (p : String) : List CanonAddr :=
  if patient_exists store p then store else store ++ writes p

/-- One full run of the driver over the patient list. -/
def leeds_run (writes : String → List CanonAddr) (pats : List String)
    (store : List CanonAddr) : List CanonAddr :=
  pats.foldl (leeds_write_patient writes) store

/-- A run that also logs every write it performs (second component). -/
def leeds_run_writes (writes : String → List CanonAddr) (pats : List String)
    (store : List CanonAddr) : List CanonAddr × List CanonAddr :=
  pats.foldl
    (fun acc p =>
      if patient_exists acc.1 p then acc
      else (acc.1 ++ writes p, acc.2 ++ writes p))
    (store, [])

/-! ### Buffered write order (dixon_2_data.py: sheffield lines 746-765,
turku_ge lines 840-860, bordeaux_patients lines 1018-1035,
exeter_patients lines 1201-1239)

After buffering extracted series in `tmp_series_folder`, these drivers
write to the store by iterating `series in ['Dixon', 'Dixon_post_contrast']`,
`counter in [1,2,3]`, `image_type in ['out_phase','in_phase','fat','water']`
and looking each generated description up in the buffer. -/

/-- The 24 series descriptions the write loop ever looks up. -/
def series_write_order : List String :=
  (["Dixon", "Dixon_post_contrast"]).flatMap fun s =>
    (([1, 2, 3] : List Nat)).flatMap fun c =>
      (["out_phase", "in_phase", "fat", "water"]).map fun t =>
        s ++ "_" ++ natRepr c ++ "_" ++ t

/-- The descriptions actually written for a given buffer content, in write
order: exactly the generated descriptions present in the buffer. -/
def sheffield_written_descs (buffered : List String) : List String :=
  series_write_order.filter (fun d => buffered.contains d)

/-! ## Helper lemmas -/

theorem string_ext {s t : String} (h : s.data = t.data) : s = t := by
  cases s; cases t; exact congrArg String.mk h

theorem digitsVal_append (l : List Char) (c : Char) :
    digitsVal (l ++ [c]) = 10 * digitsVal l + digitVal c := by
  unfold digitsVal
  rw [List.foldl_append]
  rfl

theorem digitVal_digitChar : ∀ n, n < 10 → digitVal (Nat.digitChar n) = n := by decide

theorem natToDigits_val : ∀ fuel n, n ≤ fuel → digitsVal (natToDigits (fuel + 1) n) = n := by
  intro fuel
  induction fuel with
  | zero =>
    intro n hn
    have : n = 0 := Nat.le_zero.mp hn
    subst this
    decide
  | succ f ih =>
    intro n _
    by_cases h : n < 10
    · show digitsVal (natToDigits (f + 1 + 1) n) = n
      unfold natToDigits
      rw [if_pos h]
      simp only [digitsVal, List.foldl_cons, List.foldl_nil, Nat.mul_zero, Nat.zero_add]
      exact digitVal_digitChar n h
    · show digitsVal (natToDigits (f + 1 + 1) n) = n
      unfold natToDigits
      rw [if_neg h]
      rw [digitsVal_append]
      have hdiv : n / 10 ≤ f := by
        have h1 : n / 10 < n := Nat.div_lt_self (by omega) (by omega)
        omega
      rw [ih (n / 10) hdiv]
      rw [digitVal_digitChar (n % 10) (Nat.mod_lt n (by omega))]
      omega

theorem natRepr_injective : Function.Injective natRepr := by
  intro m n h
  have hd : natToDigits (m + 1) m = natToDigits (n + 1) n := congrArg String.data h
  have hm := natToDigits_val m m le_rfl
  rw [hd, natToDigits_val n n le_rfl] at hm
  omega

theorem numberedName_data (pre post : String) (k : Nat) :
    (numberedName pre post k).data
      = (pre.data ++ "_".data) ++ (natRepr k).data ++ ("_".data ++ post.data) := by
  simp [numberedName, String.data_append, List.append_assoc]

theorem numberedName_inj (pre post : String) : Function.Injective (numberedName pre post) := by
  intro k k' h
  have hd := congrArg String.data h
  rw [numberedName_data, numberedName_data] at hd
  have hr : (natRepr k).data = (natRepr k').data :=
    List.append_cancel_left (List.append_cancel_right hd)
  exact natRepr_injective (string_ext hr)

theorem series_name_candidate_eq (pre post : String)
    (H : ∀ rep : List Char,
      replaceAll (pre ++ "_1_" ++ post).data ("_1_".data) rep = pre.data ++ rep ++ post.data)
    (k : Nat) :
    series_name_candidate (pre ++ "_1_" ++ post) k = numberedName pre post k := by
  unfold series_name_candidate
  by_cases hk : k = 1
  · subst hk
    rw [if_pos rfl]
    apply string_ext
    rw [numberedName_data]
    show (pre ++ "_1_" ++ post).data = _
    simp [String.data_append, List.append_assoc]
    rfl
  · rw [if_neg hk]
    apply string_ext
    show replaceAll (pre ++ "_1_" ++ post).data ("_1_".data) (("_" ++ natRepr k ++ "_").data) = _
    rw [H]
    rw [numberedName_data]
    simp [String.data_append, List.append_assoc]

theorem findFresh_fresh (cand : Nat → String) (hinj : Function.Injective cand) (N : Nat) :
    ∀ fuel k, 1 ≤ k → k ≤ N + 1 → N + 2 ≤ fuel + k →
      findFresh cand ((List.range N).map (fun i => cand (i + 1))) fuel k = cand (N + 1) := by
  intro fuel
  induction fuel with
  | zero => intro k _ h2 h3; omega
  | succ f ih =>
    intro k h1 h2 h3
    unfold findFresh
    by_cases hk : k = N + 1
    · subst hk
      rw [if_neg]
      intro hmem
      simp only [List.mem_map, List.mem_range] at hmem
      obtain ⟨i, hi, hci⟩ := hmem
      have := hinj hci
      omega
    · rw [if_pos]
      · exact ih (k + 1) (by omega) (by omega) (by omega)
      · simp only [List.mem_map, List.mem_range]
        refine ⟨k - 1, by omega, ?_⟩
        congr 1
        omega

theorem run_ledger_eq (base pre post : String)
    (hc : ∀ k, series_name_candidate base k = numberedName pre post k) :
    ∀ N, run_ledger base N = (List.range N).map (fun i => numberedName pre post (i + 1)) := by
  have hfun : series_name_candidate base = numberedName pre post := funext hc
  intro N
  induction N with
  | zero => rfl
  | succ n ih =>
    show add_series_name base (run_ledger base n) = _
    rw [ih]
    unfold add_series_name next_series_name
    rw [hfun, List.length_map, List.length_range]
    rw [findFresh_fresh (numberedName pre post) (numberedName_inj pre post) n (n + 1) 1
      (by omega) (by omega) (by omega)]
    rw [List.range_succ, List.map_append]
    simp

/-- Bridge for the base name Dixon_1_in_phase: Python's
`'Dixon_1_in_phase'.replace('_1_', rep)` substitutes the single occurrence
of `_1_`. -/
theorem replaceAll_dixon_in_phase (rep : List Char) :
    replaceAll ("Dixon" ++ "_1_" ++ "in_phase").data ("_1_".data) rep
      = "Dixon".data ++ rep ++ "in_phase".data := by
  simp [replaceAll, replaceAllAux, List.isPrefixOf]

/-! ## Claim theorems -/

/-- Claim C4: for every sequence of N classifications within one patient
that all produce the same base channel name (of the shape
`pre ++ "_1_" ++ post`, whose disambiguation loop substitutes its single
`_1_` occurrence — hypothesis H), the N recorded names are pairwise
distinct and carry repetition indices 1..N in call order, each obtained by
incrementing the numeric component embedded in the name until the
candidate is absent from the ledger. -/
theorem ledger_names_distinct_numbered (pre post : String)
    (H : ∀ rep : List Char,
      replaceAll (pre ++ "_1_" ++ post).data ("_1_".data) rep = pre.data ++ rep ++ post.data)
    (N : Nat) :
    run_ledger (pre ++ "_1_" ++ post) N
        = (List.range N).map (fun i => numberedName pre post (i + 1))
    ∧ (run_ledger (pre ++ "_1_" ++ post) N).Nodup := by
  have hc := series_name_candidate_eq pre post H
  have heq := run_ledger_eq (pre ++ "_1_" ++ post) pre post hc N
  refine ⟨heq, ?_⟩
  rw [heq]
  apply List.Nodup.map
  · intro a b hab
    have := numberedName_inj pre post hab
    omega
  · exact List.nodup_range N

/-- Witness for C4: three classifications of basename Dixon_1_in_phase
record Dixon_1_in_phase, Dixon_2_in_phase, Dixon_3_in_phase, pairwise
distinct. -/
theorem ledger_names_distinct_numbered_witness :
    run_ledger ("Dixon" ++ "_1_" ++ "in_phase") 3
        = ["Dixon_1_in_phase", "Dixon_2_in_phase", "Dixon_3_in_phase"]
    ∧ (run_ledger ("Dixon" ++ "_1_" ++ "in_phase") 3).Nodup := by
  have h := ledger_names_distinct_numbered "Dixon" "in_phase" replaceAll_dixon_in_phase 3
  refine ⟨?_, h.2⟩
  rw [h.1]
  rfl

/-- Claim C1 (code evaluation at the failing input): for the two-slice gap
of bari_030's out-phase branch, with bracketing frames of constant
intensity 0 (before the gap) and 3 (after), the code synthesizes the first
missing slice as (1/3)*0 + (2/3)*3 = 2 and the second as 1, whereas the
claimed weights (m-k)/(m+1), (k+1)/(m+1) for m = 2 give 1 for the first
synthesized slice and 2 for the second: the blending weights are applied
in reversed order. -/
theorem bari_030_gap2_weights_reversed :
    (bari_030_out_phase Unit [fun _ => 0, fun _ => 3] 0).getD 1 (zeroFrame Unit) () = 2
    ∧ (bari_030_out_phase Unit [fun _ => 0, fun _ => 3] 0).getD 2 (zeroFrame Unit) () = 1
    ∧ (spec_gap_weights 2 0).1 * 0 + (spec_gap_weights 2 0).2 * 3 = 1
    ∧ (spec_gap_weights 2 1).1 * 0 + (spec_gap_weights 2 1).2 * 3 = 2
    ∧ ((2 : ℚ) ≠ 1)
    ∧ (bari_030_in_phase Unit [fun _ => 0, fun _ => 3] 0).getD 1 (zeroFrame Unit) ()
        = (1/2) * 0 + (1/2) * 3
    ∧ (exeter_interpolate_vol Unit [fun _ => 0, fun _ => 3] 0).getD 1 (zeroFrame Unit) ()
        = (1/2) * 0 + (1/2) * 3 := by
  refine ⟨?_, ?_, ?_, ?_, by norm_num, ?_, ?_⟩ <;>
    simp [bari_030_out_phase, bari_030_in_phase, exeter_interpolate_vol, zeroFrame,
      spec_gap_weights] <;> norm_num

/-- Claim C2: when a series is split on echo time, the sub-batch with the
strictly lower echo time is assigned out-phase and written under the
out_phase label, the higher under in_phase, at every site performing the
split (bari, exeter_111). -/
theorem split_lower_te_out_phase (σ : Type) (name : String) (s0 s1 : ℚ × σ)
    (h : s0.1 ≠ s1.1) :
    (split_out_in σ s0 s1).1.1 < (split_out_in σ s0 s1).2.1
    ∧ (s0.1 < s1.1 → split_out_in σ s0 s1 = (s0, s1))
    ∧ (s1.1 < s0.1 → split_out_in σ s0 s1 = (s1, s0))
    ∧ bari_phase_writes σ name s0 s1
        = [(name ++ "out_phase", (split_out_in σ s0 s1).1.2),
           (name ++ "in_phase", (split_out_in σ s0 s1).2.2)] := by
  refine ⟨?_, ?_, ?_, rfl⟩
  all_goals unfold split_out_in
  · rcases lt_or_gt_of_ne h with hlt | hgt
    · rw [if_pos hlt]; exact hlt
    · rw [if_neg (not_lt_of_gt hgt)]; exact hgt
  · intro hlt; rw [if_pos hlt]
  · intro hgt; rw [if_neg (not_lt_of_gt hgt)]

/-- Witness for C2: echo times 1.2 and 2.4 in either input order. -/
theorem split_lower_te_out_phase_witness :
    split_out_in Unit ((12/10 : ℚ), ()) ((24/10 : ℚ), ()) = (((12/10 : ℚ), ()), ((24/10 : ℚ), ()))
    ∧ split_out_in Unit ((24/10 : ℚ), ()) ((12/10 : ℚ), ()) = (((12/10 : ℚ), ()), ((24/10 : ℚ), ())) := by
  constructor
  · exact (split_lower_te_out_phase Unit "Dixon_1_" _ _ (by norm_num)).2.1 (by norm_num)
  · exact (split_lower_te_out_phase Unit "Dixon_1_" _ _ (by norm_num)).2.2.1 (by norm_num)

/-- Claim C8: the position heuristic classifies a series number strictly
below the site threshold as pre-contrast (Dixon_1_) and at or above as
post-contrast (Dixon_post_contrast_1_): threshold 20 for leeds (series 4
is pre-contrast, 41 post-contrast, in both cases followed by the
attribute-derived type), threshold 1000 for bari. -/
theorem position_threshold_classification (nr : Nat) (props : String) :
    (nr < 20 → leeds_series_name nr props = "Dixon_1_" ++ leeds_props_name props)
    ∧ (20 ≤ nr → leeds_series_name nr props = "Dixon_post_contrast_1_" ++ leeds_props_name props)
    ∧ leeds_series_name 4 props = "Dixon_1_" ++ leeds_props_name props
    ∧ leeds_series_name 41 props = "Dixon_post_contrast_1_" ++ leeds_props_name props
    ∧ (nr < 1000 → bari_series_base nr = "Dixon_1_")
    ∧ (1000 ≤ nr → bari_series_base nr = "Dixon_post_contrast_1_") := by
  unfold leeds_series_name leeds_series_base bari_series_base
  refine ⟨fun h => by rw [if_pos h], fun h => by rw [if_neg (by omega)], rfl, rfl,
    fun h => by rw [if_pos h], fun h => by rw [if_neg (by omega)]⟩

/-- Witness for C8: series number 4 with ImageType token IN_PHASE gives
Dixon_1_in_phase; series number 41 with token WATER gives
Dixon_post_contrast_1_water. -/
theorem position_threshold_classification_witness :
    leeds_series_name 4 "IN_PHASE" = "Dixon_1_in_phase"
    ∧ leeds_series_name 41 "WATER" = "Dixon_post_contrast_1_water" := by
  constructor
  · have h := (position_threshold_classification 4 "IN_PHASE").1 (by omega)
    simpa using h
  · have h := (position_threshold_classification 41 "WATER").2.1 (by omega)
    simpa using h

theorem swap_fat_water_hit_fat (dixon : DixonAddr) (series : String) :
    ∀ record : List (List String), (∃ row ∈ record, rowMatchesFlagged dixon series row) →
      (swap_fat_water record dixon series "fat").name = series ++ "_water" := by
  intro record
  induction record with
  | nil => intro hex; simp at hex
  | cons row rest ih =>
    intro hex
    unfold swap_fat_water
    by_cases h1 : (row.drop 1).take 3 = [dixon.patient, dixon.study.1, series]
    · rw [if_pos h1]
      by_cases h2 : row.get? 4 = some "1"
      · rw [if_pos h2, if_pos rfl]
      · rw [if_neg h2]
        apply ih
        rcases hex with ⟨r, hr, hm⟩
        rcases List.mem_cons.mp hr with rfl | htail
        · exact absurd hm.2 h2
        · exact ⟨r, htail, hm⟩
    · rw [if_neg h1]
      apply ih
      rcases hex with ⟨r, hr, hm⟩
      rcases List.mem_cons.mp hr with rfl | htail
      · exact absurd hm.1 h1
      · exact ⟨r, htail, hm⟩

theorem swap_fat_water_hit_water (dixon : DixonAddr) (series : String) :
    ∀ record : List (List String), (∃ row ∈ record, rowMatchesFlagged dixon series row) →
      (swap_fat_water record dixon series "water").name = series ++ "_fat" := by
  intro record
  induction record with
  | nil => intro hex; simp at hex
  | cons row rest ih =>
    intro hex
    unfold swap_fat_water
    by_cases h1 : (row.drop 1).take 3 = [dixon.patient, dixon.study.1, series]
    · rw [if_pos h1]
      by_cases h2 : row.get? 4 = some "1"
      · rw [if_pos h2, if_neg (by decide : ¬("water" : String) = "fat"), if_pos rfl]
      · rw [if_neg h2]
        apply ih
        rcases hex with ⟨r, hr, hm⟩
        rcases List.mem_cons.mp hr with rfl | htail
        · exact absurd hm.2 h2
        · exact ⟨r, htail, hm⟩
    · rw [if_neg h1]
      apply ih
      rcases hex with ⟨r, hr, hm⟩
      rcases List.mem_cons.mp hr with rfl | htail
      · exact absurd hm.1 h1
      · exact ⟨r, htail, hm⟩

theorem swap_fat_water_miss (dixon : DixonAddr) (series image_type : String) :
    ∀ record : List (List String), (∀ row ∈ record, ¬ rowMatchesFlagged dixon series row) →
      swap_fat_water record dixon series image_type = dixon := by
  intro record
  induction record with
  | nil => intro _; rfl
  | cons row rest ih =>
    intro hall
    unfold swap_fat_water
    by_cases h1 : (row.drop 1).take 3 = [dixon.patient, dixon.study.1, series]
    · rw [if_pos h1]
      have h2 : ¬ row.get? 4 = some "1" :=
        fun h2 => hall row (List.mem_cons_self row rest) ⟨h1, h2⟩
      rw [if_neg h2]
      exact ih (fun r hr => hall r (List.mem_cons_of_mem row hr))
    · rw [if_neg h1]
      exact ih (fun r hr => hall r (List.mem_cons_of_mem row hr))

/-- Claim C3: if the swap table contains a record matching the address's
(patient, study label, channel-family-with-repetition) key whose swap flag
is set, image type fat yields an output address whose final component is
the swapped name ending in _water and water yields one ending in _fat;
for every address with no matching flagged record the address passes
through unchanged. -/
theorem swap_fat_water_exchanges (record : List (List String)) (dixon : DixonAddr)
    (series : String) :
    ((∃ row ∈ record, rowMatchesFlagged dixon series row) →
        (swap_fat_water record dixon series "fat").name = series ++ "_water"
      ∧ (swap_fat_water record dixon series "water").name = series ++ "_fat")
    ∧ ((∀ row ∈ record, ¬ rowMatchesFlagged dixon series row) →
        ∀ image_type, swap_fat_water record dixon series image_type = dixon) :=
  ⟨fun hex => ⟨swap_fat_water_hit_fat dixon series record hex,
    swap_fat_water_hit_water dixon series record hex⟩,
   fun hall image_type => swap_fat_water_miss dixon series image_type record hall⟩

/-- Witness for C3: a one-row table flagging (7128_011, Baseline, Dixon_1)
swaps fat to Dixon_1_water, while an address of a different patient passes
through unchanged. -/
theorem swap_fat_water_exchanges_witness :
    (swap_fat_water [["Sheffield", "7128_011", "Baseline", "Dixon_1", "1"]]
        ⟨"datapath", "7128_011", ("Baseline", 0), "Dixon_1_fat"⟩ "Dixon_1" "fat").name
      = "Dixon_1" ++ "_water"
    ∧ swap_fat_water [["Sheffield", "7128_011", "Baseline", "Dixon_1", "1"]]
        ⟨"datapath", "7128_099", ("Baseline", 0), "Dixon_1_fat"⟩ "Dixon_1" "fat"
      = ⟨"datapath", "7128_099", ("Baseline", 0), "Dixon_1_fat"⟩ := by
  constructor
  · exact ((swap_fat_water_exchanges [["Sheffield", "7128_011", "Baseline", "Dixon_1", "1"]]
      ⟨"datapath", "7128_011", ("Baseline", 0), "Dixon_1_fat"⟩ "Dixon_1").1
      ⟨["Sheffield", "7128_011", "Baseline", "Dixon_1", "1"], by simp,
        by constructor <;> rfl⟩).1
  · exact (swap_fat_water_exchanges [["Sheffield", "7128_011", "Baseline", "Dixon_1", "1"]]
      ⟨"datapath", "7128_099", ("Baseline", 0), "Dixon_1_fat"⟩ "Dixon_1").2
      (by intro r hr; simp only [List.mem_singleton] at hr; subst hr
          intro hm; exact absurd hm.1 (by decide)) "fat"

/-- Claim C10: the swap correction only ever changes the final (channel
name) component of the address - root, patient and study of the output
always equal those of the input - and for every image type other than fat
or water the entire address is returned unchanged, whatever the table
contents. -/
theorem swap_fat_water_frame (record : List (List String)) (dixon : DixonAddr)
    (series image_type : String) :
    ((swap_fat_water record dixon series image_type).root = dixon.root
      ∧ (swap_fat_water record dixon series image_type).patient = dixon.patient
      ∧ (swap_fat_water record dixon series image_type).study = dixon.study)
    ∧ (image_type ≠ "fat" → image_type ≠ "water" →
        swap_fat_water record dixon series image_type = dixon) := by
  induction record with
  | nil => exact ⟨⟨rfl, rfl, rfl⟩, fun _ _ => rfl⟩
  | cons row rest ih =>
    unfold swap_fat_water
    by_cases h1 : (row.drop 1).take 3 = [dixon.patient, dixon.study.1, series]
    · rw [if_pos h1]
      by_cases h2 : row.get? 4 = some "1"
      · rw [if_pos h2]
        by_cases h3 : image_type = "fat"
        · rw [if_pos h3]
          exact ⟨⟨rfl, rfl, rfl⟩, fun hf _ => absurd h3 hf⟩
        · rw [if_neg h3]
          by_cases h4 : image_type = "water"
          · rw [if_pos h4]
            exact ⟨⟨rfl, rfl, rfl⟩, fun _ hw => absurd h4 hw⟩
          · rw [if_neg h4]
            exact ih
      · rw [if_neg h2]
        exact ih
    · rw [if_neg h1]
      exact ih

/-- Witness for C10: with a matching flagged record and image type
in_phase, the address is returned entirely unchanged. -/
theorem swap_fat_water_frame_witness :
    swap_fat_water [["Sheffield", "7128_011", "Baseline", "Dixon_1", "1"]]
        ⟨"datapath", "7128_011", ("Baseline", 0), "Dixon_1_in_phase"⟩ "Dixon_1" "in_phase"
      = ⟨"datapath", "7128_011", ("Baseline", 0), "Dixon_1_in_phase"⟩ :=
  (swap_fat_water_frame [["Sheffield", "7128_011", "Baseline", "Dixon_1", "1"]]
    ⟨"datapath", "7128_011", ("Baseline", 0), "Dixon_1_in_phase"⟩ "Dixon_1" "in_phase").2
    (by decide) (by decide)

/-- Claim C6 (code evaluation at the failing input): in turku_philips the
write call is outside the try/else, so when volume reading fails on the
very first split sub-series the subsequent write references the unbound
local `vol` - an uncaught NameError that aborts the whole cohort run - and
when it fails after a successful sub-series the stale previous volume is
written under the failed sub-series' address; by contrast bari's try/else
(lines 635-642) writes nothing for a failed series. -/
theorem turku_philips_failure_not_contained :
    turku_philips_write_loop Nat (fun _ => none) none ["OP"]
      = Except.error "NameError: vol referenced before assignment"
    ∧ turku_philips_write_loop Nat (fun s => if s = "OP" then some 7 else none) none ["OP", "IP"]
      = Except.ok [("OP", 7), ("IP", 7)]
    ∧ bari_volume_write_step Nat (fun _ => none) "OP" = [] := by
  refine ⟨rfl, ?_, rfl⟩
  rfl

/-- Claim C7: a failing classification call leaves the per-patient
disambiguation ledger unchanged: a bordeaux dictionary miss, a leeds
series-number parse failure, and a leeds missing ImageType attribute all
raise before any name is appended, so the caller retains the old ledger. -/
theorem classification_failure_preserves_ledger (ledger : List String) :
    (∀ desc, bordeaux_desc_map.lookup desc = none →
        bordeaux_add_series_desc desc ledger = Except.error ("KeyError: " ++ desc)
      ∧ ledger_after (bordeaux_add_series_desc desc ledger) ledger = ledger)
    ∧ (∀ folder image_type, digitsToNat? (lastTwo folder.data) = none →
        ledger_after (leeds_add_series_name folder image_type ledger) ledger = ledger)
    ∧ (∀ folder image_type nr, digitsToNat? (lastTwo folder.data) = some nr →
        image_type.get? 3 = none →
        ledger_after (leeds_add_series_name folder image_type ledger) ledger = ledger) := by
  refine ⟨fun desc h => ?_, fun folder image_type h => ?_, fun folder image_type nr h1 h2 => ?_⟩
  · unfold bordeaux_add_series_desc
    rw [h]
    exact ⟨rfl, rfl⟩
  · unfold ledger_after leeds_add_series_name
    rw [h]
  · unfold ledger_after leeds_add_series_name
    rw [h1, h2]

/-- Witness for C7: an unknown series description, a non-numeric folder
suffix, and a three-token ImageType all leave the ledger
["Dixon_1_water"] untouched. -/
theorem classification_failure_preserves_ledger_witness :
    ledger_after (bordeaux_add_series_desc "T2w_haste" ["Dixon_1_water"]) ["Dixon_1_water"]
      = ["Dixon_1_water"]
    ∧ ledger_after (leeds_add_series_name "series_ab" ["ORIGINAL", "PRIMARY", "M"]
        ["Dixon_1_water"]) ["Dixon_1_water"] = ["Dixon_1_water"]
    ∧ ledger_after (leeds_add_series_name "series_04" ["ORIGINAL", "PRIMARY", "M"]
        ["Dixon_1_water"]) ["Dixon_1_water"] = ["Dixon_1_water"] :=
  ⟨((classification_failure_preserves_ledger ["Dixon_1_water"]).1 "T2w_haste" rfl).2,
   (classification_failure_preserves_ledger ["Dixon_1_water"]).2.1 "series_ab"
     ["ORIGINAL", "PRIMARY", "M"] rfl,
   (classification_failure_preserves_ledger ["Dixon_1_water"]).2.2 "series_04"
     ["ORIGINAL", "PRIMARY", "M"] 4 rfl rfl⟩

/-- Claim C9: the buffered drivers (sheffield, turku_ge, bordeaux, exeter)
write only the series descriptions generated by the nested loop over
{Dixon, Dixon_post_contrast} x {1,2,3} x {out_phase, in_phase, fat, water},
so every written channel name carries repetition index 1, 2 or 3, and a
buffered series whose disambiguated name carries repetition index 4 (such
as Dixon_4_in_phase) is never written. -/
theorem buffered_writes_repetition_bounded (buffered : List String) :
    (∀ d ∈ sheffield_written_descs buffered,
        ∃ s ∈ (["Dixon", "Dixon_post_contrast"] : List String),
        ∃ c ∈ ([1, 2, 3] : List Nat),
        ∃ t ∈ (["out_phase", "in_phase", "fat", "water"] : List String),
          d = s ++ "_" ++ natRepr c ++ "_" ++ t)
    ∧ "Dixon_4_in_phase" ∉ sheffield_written_descs buffered := by
  constructor
  · intro d hd
    have hm : d ∈ series_write_order := List.mem_of_mem_filter hd
    unfold series_write_order at hm
    obtain ⟨s, hs, hm1⟩ := List.mem_flatMap.mp hm
    obtain ⟨c, hc, hm2⟩ := List.mem_flatMap.mp hm1
    obtain ⟨t, ht, hm3⟩ := List.mem_map.mp hm2
    exact ⟨s, hs, c, hc, t, ht, hm3.symm⟩
  · intro hmem
    have hm : "Dixon_4_in_phase" ∈ series_write_order := List.mem_of_mem_filter hmem
    exact absurd hm (by decide)

/-- Witness for C9: a buffer holding only Dixon_4_in_phase produces no
write of it (the written list is empty). -/
theorem buffered_writes_repetition_bounded_witness :
    "Dixon_4_in_phase" ∉ sheffield_written_descs ["Dixon_4_in_phase"] :=
  (buffered_writes_repetition_bounded ["Dixon_4_in_phase"]).2

theorem leeds_run_mono (writes : String → List CanonAddr) :
    ∀ (pats : List String) (store : List CanonAddr) (a : CanonAddr),
      a ∈ store → a ∈ leeds_run writes pats store := by
  intro pats
  induction pats with
  | nil => intro store a ha; exact ha
  | cons p rest ih =>
    intro store a ha
    show a ∈ leeds_run writes rest (leeds_write_patient writes store p)
    apply ih
    unfold leeds_write_patient
    by_cases h : patient_exists store p
    · rw [if_pos h]; exact ha
    · rw [if_neg h]; exact List.mem_append_left _ ha

theorem leeds_run_covers (writes : String → List CanonAddr)
    (hw : ∀ p, ∀ a ∈ writes p, a.patient = p) :
    ∀ (pats : List String) (store : List CanonAddr) (p : String),
      p ∈ pats → writes p ≠ [] →
      ∃ a ∈ leeds_run writes pats store, a.patient = p := by
  intro pats
  induction pats with
  | nil => intro store p hp; simp at hp
  | cons q rest ih =>
    intro store p hp hne
    rcases List.mem_cons.mp hp with rfl | htail
    · show ∃ a ∈ leeds_run writes rest (leeds_write_patient writes store p), a.patient = p
      unfold leeds_write_patient
      by_cases h : patient_exists store p
      · rw [if_pos h]
        unfold patient_exists at h
        simp only [List.any_eq_true, beq_iff_eq] at h
        obtain ⟨a, ha, hap⟩ := h
        exact ⟨a, leeds_run_mono writes rest store a ha, hap⟩
      · rw [if_neg h]
        rcases hx : writes p with _ | ⟨x, xs⟩
        · exact absurd hx hne
        · refine ⟨x, leeds_run_mono writes rest _ x ?_,
            hw p x (by rw [hx]; exact List.mem_cons_self x xs)⟩
          exact List.mem_append_right _ (List.mem_cons_self x xs)
    · exact ih (leeds_write_patient writes store q) p htail hne

theorem leeds_second_run_fixed (writes : String → List CanonAddr) :
    ∀ (pats : List String) (T : List CanonAddr),
      (∀ p ∈ pats, writes p = [] ∨ ∃ a ∈ T, a.patient = p) →
      List.foldl
        (fun acc p =>
          if patient_exists acc.1 p then acc
          else (acc.1 ++ writes p, acc.2 ++ writes p))
        (T, ([] : List CanonAddr)) pats = (T, []) := by
  intro pats
  induction pats with
  | nil => intro T _; rfl
  | cons p rest ih =>
    intro T hcov
    show List.foldl _
      (if patient_exists T p then (T, []) else (T ++ writes p, [] ++ writes p)) rest = (T, [])
    have hstep : (if patient_exists T p then (T, ([] : List CanonAddr))
        else (T ++ writes p, [] ++ writes p)) = (T, []) := by
      rcases hcov p (List.mem_cons_self p rest) with hnil | ⟨a, ha, hap⟩
      · by_cases h : patient_exists T p
        · rw [if_pos h]
        · rw [if_neg h, hnil]
          simp
      · rw [if_pos]
        unfold patient_exists
        simp only [List.any_eq_true, beq_iff_eq]
        exact ⟨a, ha, hap⟩
    rw [hstep]
    exact ih T (fun q hq => hcov q (List.mem_cons_of_mem p hq))

/-- Claim C5: running the driver a second time over the same source and
store performs no additional writes - the second run returns the store
unchanged with an empty write log - and the existence check
short-circuits: processing any patient already present in the store
returns the store untouched, so an existing canonical volume is never
overwritten. -/
theorem leeds_rerun_idempotent (writes : String → List CanonAddr)
    (pats : List String) (store : List CanonAddr)
    (hw : ∀ p, ∀ a ∈ writes p, a.patient = p) :
    leeds_run_writes writes pats (leeds_run writes pats store)
        = (leeds_run writes pats store, [])
    ∧ (∀ (S : List CanonAddr) (p : String),
        patient_exists S p = true → leeds_write_patient writes S p = S) := by
  constructor
  · apply leeds_second_run_fixed
    intro p hp
    by_cases hne : writes p = []
    · exact Or.inl hne
    · exact Or.inr (leeds_run_covers writes hw pats store p hp hne)
  · intro S p h
    unfold leeds_write_patient
    rw [if_pos h]

/-- Witness for C5: one patient whose processing writes one address;
rerunning over the resulting store performs no write and leaves the store
unchanged. -/
theorem leeds_rerun_idempotent_witness :
    leeds_run_writes (fun p => [⟨"Leeds", p, "Baseline", "Dixon_1_out_phase"⟩]) ["4128_010"]
        (leeds_run (fun p => [⟨"Leeds", p, "Baseline", "Dixon_1_out_phase"⟩]) ["4128_010"] [])
      = (leeds_run (fun p => [⟨"Leeds", p, "Baseline", "Dixon_1_out_phase"⟩]) ["4128_010"] [], []) :=
  (leeds_rerun_idempotent (fun p => [⟨"Leeds", p, "Baseline", "Dixon_1_out_phase"⟩])
    ["4128_010"] []
    (by intro p a ha; simp only [List.mem_singleton] at ha; rw [ha])).1
